import Mathlib

/-!
A shallow embedding of the `uinames` Go client (`pkg/uinames/client.go`):
a request builder driven by functional options over a query-parameter set,
and a response handler that decodes JSON bodies into identity records or a
structured service error.

Go strings are byte sequences; we model them as `List Nat` (each entry one
byte).  External collaborators (`net/url` query encoding/parsing,
`encoding/json` decoding, `time.Parse`) are modelled at the level the spec
declares them: decode-from-bytes into typed structures, with the behaviours
the client depends on (query escaping, sorted-key encoding, JSON object /
array / scalar decoding with case-insensitive field matching, fixed-layout
date parsing).
-/

namespace UINames

/-- Go strings are byte sequences. -/
abbrev GoStr := List Nat

/-- Bytes of an ASCII string literal. -/
def bytes (s : String) : GoStr := s.data.map Char.toNat

/-- `url.Values`: a query-parameter map, modelled as a key/value pair list
(the client only ever stores one value per key, via `Set`). -/
abbrev Values := List (GoStr × GoStr)

/-- `url.Values.Set`: replace the value stored under `k`, or add the pair. -/
def Values.set (v : Values) (k val : GoStr) : Values :=
  match v with
  | [] => [(k, val)]
  | (k0, v0) :: rest =>
    if k0 = k then (k, val) :: rest else (k0, v0) :: Values.set rest k val

/-- `Error` from client.go: HTTP status text, status code and the message
taken from the service's error JSON body. -/
structure Error where
  Message : GoStr
  Status : GoStr
  StatusCode : Int
deriving DecidableEq

/-- `Error.Error()`: render as `Status ++ " - " ++ Message`. -/
def Error.Error (e : Error) : GoStr := e.Status ++ bytes (" - ") ++ e.Message

/-- The Go `error` values the client can produce or pass through. -/
inductive Err where
  /-- `errors.New` / plain message errors. -/
  | msg (s : GoStr)
  /-- `encoding/json`: malformed JSON input. -/
  | jsonSyntaxError
  /-- `encoding/json`: well-formed JSON of the wrong shape for the target. -/
  | jsonTypeError (ty : GoStr)
  /-- `time.Parse` failure (layout, value). -/
  | timeParseError (layout value : GoStr)
  /-- `url.Parse` failure. -/
  | urlParseError (value : GoStr)
  /-- the `Error` struct returned as a Go `error` value. -/
  | service (e : Error)
deriving DecidableEq

/-- `URL`: the fixed base endpoint. -/
def URL : GoStr := bytes ("https://uinames.com/api/")

/-- `amountErrorMsg`. -/
def amountErrorMsg : GoStr := bytes ("amount must be between 1 and 500 (inclusive)")

/-- `nilResponseBodyErrorMsg`. -/
def nilResponseBodyErrorMsg : GoStr := bytes ("found nil HTTP response entity body")

/-- `Opt`: a request option; mutating `*url.Values` is modelled by
state passing. -/
abbrev Opt := Values → Except Err Values

/-- Decimal digits of a natural number. -/
def natDec (n : Nat) : GoStr := (Nat.toDigits 10 n).map Char.toNat

/-- `fmt.Sprintf("%v", i)` for a Go int. -/
def intDec (i : Int) : GoStr :=
  if i < 0 then 45 :: natDec i.natAbs else natDec i.natAbs

/-- `intOpt`: option that stores an integer's decimal string under `k`. -/
def intOpt (k : GoStr) (i : Int) : Opt :=
  fun v => .ok (v.set k (intDec i))

/-- `Amount`: request option for the count of identities (valid: 1..500). -/
def Amount (amount : Int) : Opt :=
  fun v =>
    if amount < 1 ∨ amount > 500 then .error (.msg amountErrorMsg)
    else .ok (v.set (bytes ("amount")) (intDec amount))

/-- `ExtraData`: request option asking for full identity data. -/
def ExtraData : Opt :=
  fun v => .ok (v.set (bytes ("ext")) [])

/-- the `gender` string type. -/
abbrev gender := GoStr

/-- `Female`. -/
def Female : gender := bytes ("female")

/-- `Male`. -/
def Male : gender := bytes ("male")

/-- `Gender`: request option restricting the gender of the identities. -/
def Gender (g : gender) : Opt :=
  fun v => .ok (v.set (bytes ("gender")) g)

/-- `MaximumLength`: request option for the maximum name length. -/
def MaximumLength (max : Int) : Opt := intOpt (bytes ("maxlen")) max

/-- `MinimumLength`: request option for the minimum name length. -/
def MinimumLength (min : Int) : Opt := intOpt (bytes ("minlen")) min

/-- `Region`: request option restricting the geographic region. -/
def Region (region : GoStr) : Opt :=
  fun v => .ok (v.set (bytes ("region")) region)

/-! ### Query encoding (`net/url`)

`url.Values.Encode` escapes every key and value with `url.QueryEscape`
and emits `k=v` pairs joined by `&`, keys in sorted order.  We model the
byte-level escaping exactly (unreserved bytes kept, space to `+`, the rest
percent-encoded with uppercase hex). -/

/-- Bytes `url.QueryEscape` leaves untouched: alphanumerics and `-._~`. -/
def shouldKeep (b : Nat) : Bool :=
  (48 ≤ b ∧ b ≤ 57 : Bool) || (65 ≤ b ∧ b ≤ 90 : Bool) ||
    (97 ≤ b ∧ b ≤ 122 : Bool) || b = 45 || b = 46 || b = 95 || b = 126

/-- Uppercase hex digit of a nibble. -/
def hexDigUp (n : Nat) : Nat := if n < 10 then 48 + n else 55 + n

/-- Escape a single byte for a query component. -/
def escByte (b : Nat) : GoStr :=
  if shouldKeep b then [b]
  else if b = 32 then [43]
  else [37, hexDigUp (b / 16), hexDigUp (b % 16)]

/-- `url.QueryEscape` over a byte string. -/
def queryEscape : GoStr → GoStr
  | [] => []
  | b :: t => escByte b ++ queryEscape t

/-- Byte-lexicographic comparison of Go strings (`sort.Strings` order). -/
def lexLe : GoStr → GoStr → Bool
  | [], _ => true
  | _ :: _, [] => false
  | a :: s, b :: t => if a < b then true else if a = b then lexLe s t else false

/-- Insert a pair into a key-sorted pair list. -/
def insPair (p : GoStr × GoStr) : Values → Values
  | [] => [p]
  | q :: rest => if lexLe p.1 q.1 then p :: q :: rest else q :: insPair p rest

/-- Sort a pair list by key (the order `Encode` emits keys in). -/
def sortPairs : Values → Values
  | [] => []
  | p :: rest => insPair p (sortPairs rest)

/-- Join byte strings with a separator byte between them. -/
def joinSep (sep : Nat) : List GoStr → GoStr
  | [] => []
  | [x] => x
  | x :: y :: rest => x ++ sep :: joinSep sep (y :: rest)

/-- `url.Values.Encode`: escaped `k=v` pairs joined by `&`, sorted by key. -/
def Values.Encode (v : Values) : GoStr :=
  joinSep 38 ((sortPairs v).map (fun p => queryEscape p.1 ++ 61 :: queryEscape p.2))

/-- `Request`: the built descriptor (method is fixed to GET, URL fully
resolved). -/
structure Request where
  Method : GoStr
  URLStr : GoStr
deriving DecidableEq

/-- Apply the options in order to the query-parameter set, stopping at the
first failure (the loop body of `NewRequest`). -/
def applyOpts : List Opt → Values → Except Err Values
  | [], v => .ok v
  | o :: rest, v =>
    match o v with
    | .error e => .error e
    | .ok v2 => applyOpts rest v2

/-- `NewRequest`: apply the options to an empty query set, encode it and
attach it to the fixed base endpoint (`u.String()` omits the `?` when the
query string is empty). -/
def NewRequest (opts : List Opt) : Except Err Request :=
  match applyOpts opts [] with
  | .error e => .error e
  | .ok v =>
    let q := Values.Encode v
    .ok { Method := bytes ("GET"), URLStr := URL ++ (if q = [] then [] else 63 :: q) }

/-! ### JSON (`encoding/json`)

Model of the external JSON collaborator: a parser from bytes to a JSON
value tree, then decoding of values into the client's typed structures.
Number literals are kept verbatim (Go decodes them per target field).
String escapes cover the simple escapes and `\uXXXX` (encoded as UTF-8;
surrogate-pair recombination is not modelled).  Where Go's decoder records
a field error and keeps going, this model stops at the first error. -/

/-- A parsed JSON value.  Object fields are kept in input order. -/
inductive Json where
  | null
  | bool (b : Bool)
  | num (lit : GoStr)
  | str (s : GoStr)
  | arr (elems : List Json)
  | obj (fields : List (GoStr × Json))

/-- JSON whitespace bytes: space, tab, newline, carriage return. -/
def isWs (b : Nat) : Bool := b = 32 || b = 9 || b = 10 || b = 13

/-- Drop leading JSON whitespace. -/
def skipWs (s : GoStr) : GoStr := s.dropWhile isWs

/-- ASCII digit. -/
def isDigit (b : Nat) : Bool := 48 ≤ b ∧ b ≤ 57

/-- Hex digit value of a byte, if it is one. -/
def hexVal (b : Nat) : Option Nat :=
  if 48 ≤ b ∧ b ≤ 57 then some (b - 48)
  else if 65 ≤ b ∧ b ≤ 70 then some (b - 55)
  else if 97 ≤ b ∧ b ≤ 102 then some (b - 87)
  else none

/-- UTF-8 encoding of a code point (used for `\uXXXX` escapes). -/
def utf8Enc (n : Nat) : GoStr :=
  if n < 128 then [n]
  else if n < 2048 then [192 + n / 64, 128 + n % 64]
  else if n < 65536 then [224 + n / 4096, 128 + n / 64 % 64, 128 + n % 64]
  else [240 + n / 262144, 128 + n / 4096 % 64, 128 + n / 64 % 64, 128 + n % 64]

/-- Translate a simple escape character (after a backslash). -/
def escCharJson (b : Nat) : Option Nat :=
  if b = 34 ∨ b = 92 ∨ b = 47 then some b
  else if b = 98 then some 8
  else if b = 102 then some 12
  else if b = 110 then some 10
  else if b = 114 then some 13
  else if b = 116 then some 9
  else none

/-- Parse the body of a JSON string (after the opening quote), returning
the decoded bytes and the input after the closing quote. -/
def pStringBody : GoStr → Option (GoStr × GoStr)
  | 34 :: rest => some ([], rest)
  | 92 :: 117 :: a :: b :: c :: d :: rest =>
    match hexVal a, hexVal b, hexVal c, hexVal d with
    | some x, some y, some z, some w =>
      match pStringBody rest with
      | some (tail, rem) => some (utf8Enc (4096 * x + 256 * y + 16 * z + w) ++ tail, rem)
      | none => none
    | _, _, _, _ => none
  | 92 :: e :: rest =>
    match escCharJson e with
    | some c =>
      match pStringBody rest with
      | some (tail, rem) => some (c :: tail, rem)
      | none => none
    | none => none
  | b :: rest =>
    if b < 32 then none
    else
      match pStringBody rest with
      | some (tail, rem) => some (b :: tail, rem)
      | none => none
  | [] => none

/-- Leading run of ASCII digits. -/
def takeDigits (s : GoStr) : GoStr × GoStr :=
  (s.takeWhile isDigit, s.dropWhile isDigit)

/-- Integer part of a JSON number: `0`, or a nonzero digit then digits. -/
def pIntPart : GoStr → Option (GoStr × GoStr)
  | 48 :: rest => some ([48], rest)
  | b :: rest =>
    if isDigit b then
      let (ds, rem) := takeDigits rest
      some (b :: ds, rem)
    else none
  | [] => none

/-- Optional fraction part: `.` then one or more digits. -/
def pFracPart (s : GoStr) : Option (GoStr × GoStr) :=
  match s with
  | 46 :: rest =>
    let (ds, rem) := takeDigits rest
    if ds = [] then none else some (46 :: ds, rem)
  | _ => some ([], s)

/-- Optional exponent part: `e`/`E`, optional sign, one or more digits. -/
def pExpPart (s : GoStr) : Option (GoStr × GoStr) :=
  match s with
  | e :: rest =>
    if e = 101 ∨ e = 69 then
      let (sgn, rest2) :=
        match rest with
        | s0 :: r => if s0 = 43 ∨ s0 = 45 then ([s0], r) else (([] : GoStr), rest)
        | [] => (([] : GoStr), rest)
      let (ds, rem) := takeDigits rest2
      if ds = [] then none else some (e :: sgn ++ ds, rem)
    else some ([], s)
  | [] => some ([], s)

/-- Parse a JSON number token, returning its literal bytes. -/
def pNumTok (s : GoStr) : Option (GoStr × GoStr) :=
  let (sgn, s1) :=
    match s with
    | 45 :: rest => (([45] : GoStr), rest)
    | _ => (([] : GoStr), s)
  match pIntPart s1 with
  | none => none
  | some (ip, s2) =>
    match pFracPart s2 with
    | none => none
    | some (fp, s3) =>
      match pExpPart s3 with
      | none => none
      | some (ep, s4) => some (sgn ++ ip ++ fp ++ ep, s4)

mutual

/-- Parse a JSON value (fuel-indexed recursive descent). -/
def pValue : Nat → GoStr → Option (Json × GoStr)
  | 0, _ => none
  | f + 1, s =>
    match skipWs s with
    | 110 :: 117 :: 108 :: 108 :: rest => some (.null, rest)
    | 116 :: 114 :: 117 :: 101 :: rest => some (.bool true, rest)
    | 102 :: 97 :: 108 :: 115 :: 101 :: rest => some (.bool false, rest)
    | 34 :: rest =>
      match pStringBody rest with
      | some (cs, rem) => some (.str cs, rem)
      | none => none
    | 91 :: rest =>
      match skipWs rest with
      | 93 :: rem => some (.arr [], rem)
      | s2 =>
        match pElems f s2 with
        | some (es, rem) => some (.arr es, rem)
        | none => none
    | 123 :: rest =>
      match skipWs rest with
      | 125 :: rem => some (.obj [], rem)
      | s2 =>
        match pFields f s2 with
        | some (fs, rem) => some (.obj fs, rem)
        | none => none
    | s2 =>
      match pNumTok s2 with
      | some (lit, rem) => some (.num lit, rem)
      | none => none

/-- Parse one or more comma-separated array elements, then `]`. -/
def pElems : Nat → GoStr → Option (List Json × GoStr)
  | 0, _ => none
  | f + 1, s =>
    match pValue f s with
    | none => none
    | some (j, rest) =>
      match skipWs rest with
      | 44 :: rest2 =>
        match pElems f rest2 with
        | some (es, rem) => some (j :: es, rem)
        | none => none
      | 93 :: rem => some ([j], rem)
      | _ => none

/-- Parse one or more comma-separated object members, then the closing
brace. -/
def pFields : Nat → GoStr → Option (List (GoStr × Json) × GoStr)
  | 0, _ => none
  | f + 1, s =>
    match skipWs s with
    | 34 :: rest =>
      match pStringBody rest with
      | none => none
      | some (k, rest2) =>
        match skipWs rest2 with
        | 58 :: rest3 =>
          match pValue f rest3 with
          | none => none
          | some (j, rest4) =>
            match skipWs rest4 with
            | 44 :: rest5 =>
              match pFields f rest5 with
              | some (fs, rem) => some ((k, j) :: fs, rem)
              | none => none
            | 125 :: rem => some ([(k, j)], rem)
            | _ => none
        | _ => none
    | _ => none

end

/-- Parse a complete JSON document (trailing whitespace only). -/
def jsonParse (data : GoStr) : Option Json :=
  match pValue (data.length + 1) data with
  | some (j, rest) => if skipWs rest = [] then some j else none
  | none => none

/-! ### Decoding JSON values into the client's types -/

/-- ASCII lower-casing of a byte (Go's case-insensitive field matching). -/
def lowerByte (b : Nat) : Nat := if 65 ≤ b ∧ b ≤ 90 then b + 32 else b

/-- Case-insensitive key comparison used by `encoding/json` to match a
field tag. -/
def foldEq (k tag : GoStr) : Bool := k.map lowerByte = tag.map lowerByte

/-- `strconv.ParseInt` on a JSON number literal (what Go runs when the
target field is an int). -/
def goParseInt (lit : GoStr) : Option Int :=
  match lit with
  | 45 :: ds => if ds ≠ [] ∧ ds.all isDigit then some (-(Int.ofNat (ds.foldl (fun a b => 10 * a + (b - 48)) 0))) else none
  | ds => if ds ≠ [] ∧ ds.all isDigit then some (Int.ofNat (ds.foldl (fun a b => 10 * a + (b - 48)) 0)) else none

/-- Decode a JSON value into a string field (`null` leaves the current
value, anything but a string is a type error). -/
def decStrField (cur : GoStr) (j : Json) : Except Err GoStr :=
  match j with
  | .str s => .ok s
  | .null => .ok cur
  | _ => .error (.jsonTypeError (bytes ("string")))

/-- Decode a JSON value into an int field. -/
def decIntField (cur : Int) (j : Json) : Except Err Int :=
  match j with
  | .num lit =>
    match goParseInt lit with
    | some i => .ok i
    | none => .error (.jsonTypeError (bytes ("int")))
  | .null => .ok cur
  | _ => .error (.jsonTypeError (bytes ("int")))

/-- `CreditCard` from client.go. -/
structure CreditCard where
  Expiration : GoStr
  Number : GoStr
  Pin : Int
  Security : Int
deriving DecidableEq

/-- The zero `CreditCard`. -/
def zeroCreditCard : CreditCard :=
  { Expiration := [], Number := [], Pin := 0, Security := 0 }

/-- Apply one JSON object member to a `CreditCard` in progress. -/
def ccField (c : CreditCard) (k : GoStr) (j : Json) : Except Err CreditCard :=
  if foldEq k (bytes ("expiration")) then
    (decStrField c.Expiration j).map (fun s => { c with Expiration := s })
  else if foldEq k (bytes ("number")) then
    (decStrField c.Number j).map (fun s => { c with Number := s })
  else if foldEq k (bytes ("pin")) then
    (decIntField c.Pin j).map (fun i => { c with Pin := i })
  else if foldEq k (bytes ("security")) then
    (decIntField c.Security j).map (fun i => { c with Security := i })
  else .ok c

/-- Fold JSON object members over a struct decoder. -/
def decFields {α : Type} (f : α → GoStr → Json → Except Err α) :
    α → List (GoStr × Json) → Except Err α
  | a, [] => .ok a
  | a, (k, j) :: rest =>
    match f a k j with
    | .error e => .error e
    | .ok a2 => decFields f a2 rest

/-- Decode a JSON value into a `CreditCard` struct field. -/
def decCreditCard (cur : CreditCard) (j : Json) : Except Err CreditCard :=
  match j with
  | .obj fs => decFields ccField cur fs
  | .null => .ok cur
  | _ => .error (.jsonTypeError (bytes ("uinames.CreditCard")))

/-- The `Birthday` wire shape from `Response.UnmarshalJSON`. -/
structure Birthday where
  DMY : GoStr
  MDY : GoStr
  Raw : Int
deriving DecidableEq

/-- The zero `Birthday`. -/
def zeroBirthday : Birthday := { DMY := [], MDY := [], Raw := 0 }

/-- Apply one JSON object member to a `Birthday` in progress. -/
def bdField (b : Birthday) (k : GoStr) (j : Json) : Except Err Birthday :=
  if foldEq k (bytes ("dmy")) then
    (decStrField b.DMY j).map (fun s => { b with DMY := s })
  else if foldEq k (bytes ("mdy")) then
    (decStrField b.MDY j).map (fun s => { b with MDY := s })
  else if foldEq k (bytes ("raw")) then
    (decIntField b.Raw j).map (fun i => { b with Raw := i })
  else .ok b

/-- Decode a JSON value into the `Birthday` struct field. -/
def decBirthday (cur : Birthday) (j : Json) : Except Err Birthday :=
  match j with
  | .obj fs => decFields bdField cur fs
  | .null => .ok cur
  | _ => .error (.jsonTypeError (bytes ("uinames.Birthday")))

/-- The alias wire shape `Response.UnmarshalJSON` first decodes into: the
plain `Response` fields plus the raw `birthday` object and `photo` string. -/
structure RespAlias where
  Name : GoStr
  Surname : GoStr
  Gender : GoStr
  Region : GoStr
  Age : Int
  Title : GoStr
  Phone : GoStr
  Email : GoStr
  Password : GoStr
  CreditCard : CreditCard
  Birthday : Birthday
  Photo : GoStr
deriving DecidableEq

/-- The zero alias value (all fields at their Go zero values). -/
def zeroAlias : RespAlias :=
  { Name := [], Surname := [], Gender := [], Region := [], Age := 0,
    Title := [], Phone := [], Email := [], Password := [],
    CreditCard := zeroCreditCard, Birthday := zeroBirthday, Photo := [] }

/-- Apply one JSON object member to the alias struct (tags from
client.go; unknown members are ignored). -/
def aliasField (a : RespAlias) (k : GoStr) (j : Json) : Except Err RespAlias :=
  if foldEq k (bytes ("name")) then
    (decStrField a.Name j).map (fun s => { a with Name := s })
  else if foldEq k (bytes ("surname")) then
    (decStrField a.Surname j).map (fun s => { a with Surname := s })
  else if foldEq k (bytes ("gender")) then
    (decStrField a.Gender j).map (fun s => { a with Gender := s })
  else if foldEq k (bytes ("region")) then
    (decStrField a.Region j).map (fun s => { a with Region := s })
  else if foldEq k (bytes ("age")) then
    (decIntField a.Age j).map (fun i => { a with Age := i })
  else if foldEq k (bytes ("title")) then
    (decStrField a.Title j).map (fun s => { a with Title := s })
  else if foldEq k (bytes ("phone")) then
    (decStrField a.Phone j).map (fun s => { a with Phone := s })
  else if foldEq k (bytes ("email")) then
    (decStrField a.Email j).map (fun s => { a with Email := s })
  else if foldEq k (bytes ("password")) then
    (decStrField a.Password j).map (fun s => { a with Password := s })
  else if foldEq k (bytes ("credit_card")) then
    (decCreditCard a.CreditCard j).map (fun c => { a with CreditCard := c })
  else if foldEq k (bytes ("birthday")) then
    (decBirthday a.Birthday j).map (fun b => { a with Birthday := b })
  else if foldEq k (bytes ("photo")) then
    (decStrField a.Photo j).map (fun s => { a with Photo := s })
  else .ok a

/-- Decode a parsed JSON value into the alias struct. -/
def decAlias (j : Json) : Except Err RespAlias :=
  match j with
  | .obj fs => decFields aliasField zeroAlias fs
  | .null => .ok zeroAlias
  | _ => .error (.jsonTypeError (bytes ("uinames.Response")))

/-- `json.Unmarshal` of a body into the alias struct: parse, then decode. -/
def unmarshalAlias (data : GoStr) : Except Err RespAlias :=
  match jsonParse data with
  | none => .error .jsonSyntaxError
  | some j => decAlias j

/-! ### Date and URL parsing (`time.Parse`, `url.Parse`) -/

/-- A calendar date (`time.Time` restricted to what the layout produces).
The zero `time.Time` is January 1, year 1. -/
structure Date where
  Year : Nat
  Month : Nat
  Day : Nat
deriving DecidableEq

/-- The zero `time.Time` date. -/
def zeroDate : Date := { Year := 1, Month := 1, Day := 1 }

/-- Leap-year test (Gregorian). -/
def isLeap (y : Nat) : Bool := y % 4 = 0 ∧ (y % 100 ≠ 0 ∨ y % 400 = 0)

/-- Days in a month. -/
def daysIn (m y : Nat) : Nat :=
  if m = 2 then (if isLeap y then 29 else 28)
  else if m = 4 ∨ m = 6 ∨ m = 9 ∨ m = 11 then 30
  else 31

/-- Two fixed-width decimal digits. -/
def twoDigits : GoStr → Option (Nat × GoStr)
  | a :: b :: rest =>
    if isDigit a ∧ isDigit b then some (10 * (a - 48) + (b - 48), rest) else none
  | _ => none

/-- `time.Parse("01/02/2006", value)`: two-digit month, `/`, two-digit
day, `/`, four-digit year, nothing else; month and day range-checked. -/
def parseMDY (value : GoStr) : Except Err Date :=
  match twoDigits value with
  | none => .error (.timeParseError (bytes ("01/02/2006")) value)
  | some (m, r1) =>
    match r1 with
    | 47 :: r2 =>
      match twoDigits r2 with
      | none => .error (.timeParseError (bytes ("01/02/2006")) value)
      | some (d, r3) =>
        match r3 with
        | 47 :: r4 =>
          match twoDigits r4, twoDigits (r4.drop 2) with
          | some (y1, _), some (y2, r5) =>
            if r5 = [] ∧ 1 ≤ m ∧ m ≤ 12 ∧ 1 ≤ d ∧ d ≤ daysIn m (100 * y1 + y2) then
              .ok { Year := 100 * y1 + y2, Month := m, Day := d }
            else .error (.timeParseError (bytes ("01/02/2006")) value)
          | _, _ => .error (.timeParseError (bytes ("01/02/2006")) value)
        | _ => .error (.timeParseError (bytes ("01/02/2006")) value)
    | _ => .error (.timeParseError (bytes ("01/02/2006")) value)

/-- `url.Parse`: kept as the raw string; it fails on ASCII control
characters (the collaborator's failure mode relevant here). -/
def urlParse (s : GoStr) : Except Err GoStr :=
  if s.any (fun b => b < 32 ∨ b = 127) then .error (.urlParseError s) else .ok s

/-! ### `Response` and its custom unmarshalling -/

/-- `Response` from client.go: one identity record. -/
structure Response where
  Name : GoStr
  Surname : GoStr
  Gender : GoStr
  Region : GoStr
  Age : Int
  Title : GoStr
  Phone : GoStr
  Birthdate : Date
  Email : GoStr
  Password : GoStr
  CreditCard : CreditCard
  Photo : Option GoStr
deriving DecidableEq

/-- The zero `Response` (nil `Photo`, zero `time.Time`). -/
def zeroResponse : Response :=
  { Name := [], Surname := [], Gender := [], Region := [], Age := 0,
    Title := [], Phone := [], Birthdate := zeroDate, Email := [],
    Password := [], CreditCard := zeroCreditCard, Photo := none }

/-- Copy the alias fields onto a `Response` (what the embedded pointer in
`Response.UnmarshalJSON` does as the alias decodes). -/
def respOfAlias (a : RespAlias) : Response :=
  { Name := a.Name, Surname := a.Surname, Gender := a.Gender,
    Region := a.Region, Age := a.Age, Title := a.Title, Phone := a.Phone,
    Birthdate := zeroDate, Email := a.Email, Password := a.Password,
    CreditCard := a.CreditCard, Photo := none }

/-- `Response.UnmarshalJSON` on a parsed JSON value: decode the alias,
parse the `mdy` birthday string with layout `01/02/2006`, parse the photo
URL.  Returns the record as mutated so far together with the error, since
the Go method writes through a pointer before it can fail. -/
def unmarshalRespJson (j : Json) : Response × Option Err :=
  match decAlias j with
  | .error e => (zeroResponse, some e)
  | .ok a =>
    let r := respOfAlias a
    match parseMDY a.Birthday.MDY with
    | .error e => (r, some e)
    | .ok dob =>
      let r2 := { r with Birthdate := dob }
      match urlParse a.Photo with
      | .error e => (r2, some e)
      | .ok u => ({ r2 with Photo := some u }, none)

/-- `json.Unmarshal(body, &ri)` for a single `Response`. -/
def unmarshalResponse (data : GoStr) : Response × Option Err :=
  match jsonParse data with
  | none => (zeroResponse, some .jsonSyntaxError)
  | some j => unmarshalRespJson j

/-- Decode a list of JSON values elementwise, stopping at the first
failing element (keeping it, as Go keeps the slice built so far). -/
def decElems : List Json → List Response × Option Err
  | [] => ([], none)
  | j :: rest =>
    match unmarshalRespJson j with
    | (r, some e) => ([r], some e)
    | (r, none) =>
      let (rs, e) := decElems rest
      (r :: rs, e)

/-- `json.Unmarshal(body, &rl)` for a `[]Response`. -/
def unmarshalResponseList (data : GoStr) : List Response × Option Err :=
  match jsonParse data with
  | none => ([], some .jsonSyntaxError)
  | some (.arr es) => decElems es
  | some .null => ([], none)
  | some _ => ([], some (.jsonTypeError (bytes ("[]uinames.Response"))))

/-! ### The response handler (`get`, `unmarshalError`,
`getResponseEntityBody`) -/

/-- An HTTP response as the handler sees it: status code, status text and
an optional (possibly nil) body, already modelled as in-memory bytes. -/
structure HTTPResponse where
  StatusCode : Int
  Status : GoStr
  Body : Option GoStr

/-- `getResponseEntityBody`: fail with the fixed message when the body is
nil; otherwise return the bytes (the read itself is in-memory here). -/
def getResponseEntityBody (hr : HTTPResponse) : Except Err GoStr :=
  match hr.Body with
  | none => .error (.msg nilResponseBodyErrorMsg)
  | some bs => .ok bs

/-- Decode the `Error` struct's fields from a JSON object member
(only tag `error` is live; `Status`/`StatusCode` are tagged `json:"-"`). -/
def errField (e : Error) (k : GoStr) (j : Json) : Except Err Error :=
  if foldEq k (bytes ("error")) then
    (decStrField e.Message j).map (fun s => { e with Message := s })
  else .ok e

/-- `json.Unmarshal(data, &e)` for the pre-populated `Error` struct. -/
def unmarshalErrBody (data : GoStr) (e : Error) : Except Err Error :=
  match jsonParse data with
  | none => .error .jsonSyntaxError
  | some (.obj fs) => decFields errField e fs
  | some .null => .ok e
  | some _ => .error (.jsonTypeError (bytes ("uinames.Error")))

/-- `unmarshalError`: build the `Error` from the status line/code, read
the body and decode the service message into it; any read or decode
failure is returned instead. -/
def unmarshalError (hr : HTTPResponse) : Err :=
  let e0 : Error := { Message := [], Status := hr.Status, StatusCode := hr.StatusCode }
  match getResponseEntityBody hr with
  | .error err => err
  | .ok data =>
    match unmarshalErrBody data e0 with
    | .error err => err
    | .ok e => .service e

/-- `Request.get` after the transport call: dispatch on status code, read
the body, and decode a list when the first byte is `[`, a single record
otherwise (appended before the error check). -/
def get (hr : HTTPResponse) : List Response × Option Err :=
  let rl : List Response := []
  if hr.StatusCode ≠ 200 then (rl, some (unmarshalError hr))
  else
    match getResponseEntityBody hr with
    | .error err => (rl, some err)
    | .ok body =>
      if 0 < body.length ∧ body.head? = some 91 then unmarshalResponseList body
      else
        let (ri, err) := unmarshalResponse body
        (rl ++ [ri], err)

/-! ### Query-string parsing (`url.ParseQuery`) -/

/-- Cut a byte string at the first occurrence of `sep`: the part before,
and the part after it (or `none` when `sep` does not occur). -/
def splitSep (sep : Nat) : GoStr → GoStr × Option GoStr
  | [] => ([], none)
  | b :: t =>
    if b = sep then ([], some t)
    else
      let (x, r) := splitSep sep t
      (b :: x, r)

/-- Split a byte string on every occurrence of `sep` (the segment loop of
`ParseQuery`); splitting the empty string yields one empty segment. -/
def splitAll (sep : Nat) : GoStr → List GoStr
  | [] => [[]]
  | b :: t =>
    if b = sep then [] :: splitAll sep t
    else
      match splitAll sep t with
      | seg :: segs => (b :: seg) :: segs
      | [] => [[b]]

/-- `url.QueryUnescape`: undo `+` and `%XX` escaping. -/
def queryUnescape : GoStr → Except Err GoStr
  | [] => .ok []
  | b :: t =>
    if b = 37 then
      match t with
      | a :: c :: rest =>
        match hexVal a, hexVal c with
        | some x, some y => (queryUnescape rest).map (fun r => (16 * x + y) :: r)
        | _, _ => .error (.msg (bytes ("invalid URL escape")))
      | _ => .error (.msg (bytes ("invalid URL escape")))
    else if b = 43 then (queryUnescape t).map (fun r => 32 :: r)
    else (queryUnescape t).map (fun r => b :: r)

/-- Process the segments of a query string: skip empty segments, reject
semicolons, cut at the first `=`, unescape key and value; a failing
segment is skipped and its error kept (first error wins). -/
def parseSegs : List GoStr → Values × Option Err
  | [] => ([], none)
  | seg :: rest =>
    if seg = [] then parseSegs rest
    else if 59 ∈ seg then
      let (m, _) := parseSegs rest
      (m, some (.msg (bytes ("invalid semicolon separator in query"))))
    else
      let (k, val) :=
        match splitSep 61 seg with
        | (a, none) => (a, ([] : GoStr))
        | (a, some b) => (a, b)
      match queryUnescape k, queryUnescape val with
      | .ok k2, .ok v2 =>
        let (m, e) := parseSegs rest
        ((k2, v2) :: m, e)
      | .error e, _ =>
        let (m, _) := parseSegs rest
        (m, some e)
      | _, .error e =>
        let (m, _) := parseSegs rest
        (m, some e)

/-- `url.ParseQuery`: split on `&` and decode each segment; the key/value
pairs are kept in the order they occur. -/
def parseQuery (s : GoStr) : Values × Option Err := parseSegs (splitAll 38 s)

/-! ### Decidable equality for results -/

instance {ε α : Type} [DecidableEq ε] [DecidableEq α] : DecidableEq (Except ε α) :=
  fun a b =>
    match a, b with
    | .ok x, .ok y =>
      if h : x = y then isTrue (by rw [h]) else isFalse (by intro hh; cases hh; exact h rfl)
    | .error x, .error y =>
      if h : x = y then isTrue (by rw [h]) else isFalse (by intro hh; cases hh; exact h rfl)
    | .ok _, .error _ => isFalse (by intro hh; cases hh)
    | .error _, .ok _ => isFalse (by intro hh; cases hh)

/-! ### Claims about the request builder -/

/-- C2: `Amount(n)` for `n` in `[1,500]` sets the `amount` parameter to
the decimal string of `n`; outside that range it fails with the fixed
validation message (and produces no mutated parameter set). -/
theorem Amount_spec (n : Int) (v : Values) :
    (1 ≤ n ∧ n ≤ 500 → Amount n v = .ok (v.set (bytes ("amount")) (intDec n))) ∧
    ((n < 1 ∨ 500 < n) → Amount n v = .error (.msg amountErrorMsg)) := by
  constructor
  · intro h
    have : ¬(n < 1 ∨ n > 500) := by omega
    simp [Amount, this]
  · intro h
    have : n < 1 ∨ n > 500 := by omega
    simp [Amount, this]

/-- Witness for C2 at `n = 5` and `n = 501`. -/
theorem Amount_spec_witness :
    Amount 5 [] = .ok [(bytes ("amount"), bytes ("5"))] ∧
    Amount 501 [] = .error (.msg amountErrorMsg) :=
  ⟨((Amount_spec 5 []).1 (by decide)).trans rfl, (Amount_spec 501 []).2 (by decide)⟩

/-- `applyOpts` splits over list append. -/
theorem applyOpts_append (l1 l2 : List Opt) (v : Values) :
    applyOpts (l1 ++ l2) v =
      match applyOpts l1 v with
      | .error e => .error e
      | .ok v2 => applyOpts l2 v2 := by
  induction l1 generalizing v with
  | nil => simp [applyOpts]
  | cons o rest ih =>
    simp only [List.cons_append, applyOpts]
    cases o v with
    | error e => rfl
    | ok v2 => exact ih v2

/-- C5: when the options before position `i` all succeed and the option at
position `i` fails, `NewRequest` returns that option's error and no
descriptor, whatever options follow. -/
theorem NewRequest_short_circuits (pre post : List Opt) (o : Opt) (v : Values) (e : Err)
    (hpre : applyOpts pre [] = .ok v) (hfail : o v = .error e) :
    NewRequest (pre ++ o :: post) = .error e := by
  unfold NewRequest
  rw [applyOpts_append, hpre]
  simp only [applyOpts, hfail]

/-- Witness for C5: a failing `Amount` in the middle of an option list. -/
theorem NewRequest_short_circuits_witness :
    NewRequest [Amount 5, Amount 501, ExtraData] = .error (.msg amountErrorMsg) :=
  NewRequest_short_circuits [Amount 5] [ExtraData] (Amount 501)
    [(bytes ("amount"), bytes ("5"))] (.msg amountErrorMsg) rfl rfl

/-- C6: the full option list yields exactly the sorted-by-key query string
from the spec, and no options yield the bare base endpoint. -/
theorem NewRequest_encoding :
    NewRequest [Amount 5, ExtraData, Gender Female, MaximumLength 32,
        MinimumLength 10, Region (bytes ("Germany"))] =
      .ok { Method := bytes ("GET"),
            URLStr := bytes ("https://uinames.com/api/?amount=5&ext=&gender=female&maxlen=32&minlen=10&region=Germany") } ∧
    NewRequest [] = .ok { Method := bytes ("GET"), URLStr := URL } :=
  ⟨rfl, rfl⟩

/-! ### Claims about the response handler -/

/-- C4: a nil body makes the handler fail with the fixed
missing-response-body message, on the 200 path and the non-200 path alike. -/
theorem get_nil_body (code : Int) (st : GoStr) :
    get { StatusCode := code, Status := st, Body := none } =
      ([], some (.msg nilResponseBodyErrorMsg)) := by
  by_cases h : code = 200 <;>
    simp [get, h, getResponseEntityBody, unmarshalError]

/-- C1 counterexample: on a 200 body whose first non-whitespace byte is
`[` but whose literal first byte is a space, the handler does not return
the decoded list (the empty sequence, no error); it takes the
single-record branch and returns a zero record plus a type error. -/
theorem get_first_nonws_counterexample :
    (skipWs (bytes (" []"))).head? = some 91 ∧
    unmarshalResponseList (bytes (" []")) = ([], none) ∧
    get { StatusCode := 200, Status := bytes ("OK"), Body := some (bytes (" []")) } =
      ([zeroResponse], some (.jsonTypeError (bytes ("uinames.Response")))) :=
  ⟨rfl, rfl, rfl⟩

/-- C1 (amended): for a 200 response with a non-empty body, the handler
inspects the literal first byte: `[` selects the list decode, anything
else the single-record decode wrapped in a one-element sequence. -/
theorem get_200_branches (hr : HTTPResponse) (body : GoStr)
    (h200 : hr.StatusCode = 200) (hbody : hr.Body = some body) (hne : body ≠ []) :
    (body.head? = some 91 → get hr = unmarshalResponseList body) ∧
    (body.head? ≠ some 91 →
      get hr = ([(unmarshalResponse body).1], (unmarshalResponse body).2)) := by
  have hlen : 0 < body.length := List.length_pos.mpr hne
  constructor
  · intro h91
    simp [get, h200, hbody, getResponseEntityBody, hlen, h91]
  · intro h91
    simp [get, h200, hbody, getResponseEntityBody, h91]

/-- Witness for C1 (amended): a body starting with `[` takes the list
branch. -/
theorem get_200_branches_witness :
    get { StatusCode := 200, Status := bytes ("OK"), Body := some (bytes ("[]")) } =
      ([], none) :=
  ((get_200_branches { StatusCode := 200, Status := bytes ("OK"), Body := some (bytes ("[]")) }
    (bytes ("[]")) rfl rfl (by decide)).1 (by decide)).trans rfl

/-- C9: in the single-record branch the record is appended before the
decode error is checked, so a 200 body that does not begin with `[` and
fails to decode still yields a one-element sequence (the record as far as
it got) together with the decode error. -/
theorem get_single_append_before_check (st body : GoStr) (r : Response) (e : Err)
    (hne : body.head? ≠ some 91)
    (hdec : unmarshalResponse body = (r, some e)) :
    get { StatusCode := 200, Status := st, Body := some body } = ([r], some e) := by
  simp [get, getResponseEntityBody, hne, hdec]

/-- Witness for C9: a non-JSON 200 body yields a zero record plus the
syntax error. -/
theorem get_single_append_before_check_witness :
    get { StatusCode := 200, Status := bytes ("OK"), Body := some (bytes ("nope")) } =
      ([zeroResponse], some .jsonSyntaxError) :=
  get_single_append_before_check (bytes ("OK")) (bytes ("nope")) zeroResponse
    .jsonSyntaxError (by decide) rfl

/-- `errField` never changes `Status` or `StatusCode`. -/
theorem errField_keeps_status (e : Error) (k : GoStr) (j : Json) (e2 : Error)
    (h : errField e k j = .ok e2) : e2.Status = e.Status ∧ e2.StatusCode = e.StatusCode := by
  unfold errField at h
  by_cases hk : foldEq k (bytes ("error")) = true
  · rw [if_pos hk] at h
    cases hs : decStrField e.Message j with
    | ok s => rw [hs] at h; injection h with h2; subst h2; exact ⟨rfl, rfl⟩
    | error e3 => rw [hs] at h; cases h
  · rw [if_neg hk] at h
    injection h with h2
    subst h2
    exact ⟨rfl, rfl⟩

/-- Decoding the error body never changes `Status` or `StatusCode`. -/
theorem decFields_errField_keeps_status (fs : List (GoStr × Json)) (e e2 : Error)
    (h : decFields errField e fs = .ok e2) :
    e2.Status = e.Status ∧ e2.StatusCode = e.StatusCode := by
  induction fs generalizing e with
  | nil =>
    simp only [decFields] at h
    injection h with h2
    subst h2
    exact ⟨rfl, rfl⟩
  | cons p rest ih =>
    simp only [decFields] at h
    cases hf : errField e p.1 p.2 with
    | error e3 => rw [hf] at h; cases h
    | ok e3 =>
      rw [hf] at h
      have h1 := errField_keeps_status e p.1 p.2 e3 hf
      have h2 := ih e3 h
      exact ⟨h2.1.trans h1.1, h2.2.trans h1.2⟩

/-- `unmarshalErrBody` keeps the status fields it was seeded with. -/
theorem unmarshalErrBody_keeps_status (data : GoStr) (e e2 : Error)
    (h : unmarshalErrBody data e = .ok e2) :
    e2.Status = e.Status ∧ e2.StatusCode = e.StatusCode := by
  unfold unmarshalErrBody at h
  cases hp : jsonParse data with
  | none => rw [hp] at h; cases h
  | some j =>
    rw [hp] at h
    cases j with
    | obj fs => exact decFields_errField_keeps_status fs e e2 h
    | null => injection h with h2; subst h2; exact ⟨rfl, rfl⟩
    | bool b => cases h
    | num l => cases h
    | str s => cases h
    | arr es => cases h

/-- C3: a non-200 response whose body decodes as an error payload yields a
Service Error carrying the status line, status code and service message,
rendered as the status text, then `" - "`, then the message; if decoding
the error body fails, that failure is returned instead. -/
theorem get_non200_service_error (code : Int) (st body : GoStr) (hcode : code ≠ 200) :
    (∀ em : Error,
      unmarshalErrBody body { Message := [], Status := st, StatusCode := code } = .ok em →
        get { StatusCode := code, Status := st, Body := some body } = ([], some (.service em)) ∧
        em.Status = st ∧ em.StatusCode = code ∧
        Error.Error em = st ++ bytes (" - ") ++ em.Message) ∧
    (∀ de : Err,
      unmarshalErrBody body { Message := [], Status := st, StatusCode := code } = .error de →
        get { StatusCode := code, Status := st, Body := some body } = ([], some de)) := by
  constructor
  · intro em hok
    have hkeep := unmarshalErrBody_keeps_status body _ em hok
    refine ⟨?_, hkeep.1, hkeep.2, ?_⟩
    · simp [get, hcode, unmarshalError, getResponseEntityBody, hok]
    · rw [Error.Error, hkeep.1]
  · intro de herr
    simp [get, hcode, unmarshalError, getResponseEntityBody, herr]

/-- Witness for C3: the spec's example error body and status. -/
theorem get_non200_service_error_witness :
    get { StatusCode := 400, Status := bytes ("Bad Request"), Body := some (bytes ("\x7b\"error\":\"Region or language not found\"\x7d")) } =
      ([], some (.service { Message := bytes ("Region or language not found"), Status := bytes ("Bad Request"), StatusCode := 400 })) ∧
    Error.Error { Message := bytes ("Region or language not found"), Status := bytes ("Bad Request"), StatusCode := 400 } =
      bytes ("Bad Request - Region or language not found") := by
  have h := (get_non200_service_error 400 (bytes ("Bad Request"))
    (bytes ("\x7b\"error\":\"Region or language not found\"\x7d")) (by decide)).1
    { Message := bytes ("Region or language not found"), Status := bytes ("Bad Request"), StatusCode := 400 } rfl
  exact ⟨h.1, h.2.2.2.trans rfl⟩

/-- C10 counterexample: a non-200 body that is valid JSON without any
`"error"` string field — but not an object — makes the error decode fail,
so the handler returns the decode failure, not a Service Error with an
empty message. -/
theorem get_non200_no_error_field_counterexample :
    (jsonParse (bytes ("[\"x\"]"))).isSome = true ∧
    get { StatusCode := 400, Status := bytes ("Bad Request"), Body := some (bytes ("[\"x\"]")) } =
      ([], some (.jsonTypeError (bytes ("uinames.Error")))) :=
  ⟨rfl, rfl⟩

/-- Decoding error fields none of which matches the `error` tag leaves the
seeded `Error` untouched. -/
theorem decFields_errField_no_match (fs : List (GoStr × Json)) (e : Error)
    (h : ∀ p ∈ fs, foldEq p.1 (bytes ("error")) = false) :
    decFields errField e fs = .ok e := by
  induction fs with
  | nil => rfl
  | cons p rest ih =>
    have hp := h p (List.mem_cons_self p rest)
    have hrest : ∀ q ∈ rest, foldEq q.1 (bytes ("error")) = false :=
      fun q hq => h q (List.mem_cons_of_mem p hq)
    simp only [decFields, errField, hp, Bool.false_eq_true, if_false]
    exact ih hrest

/-- C10 (amended): a non-200 response whose body is a valid JSON *object*
with no key matching `error` (ASCII case-insensitively) yields a Service
Error with the empty message, rendered as the status text followed by
`" - "` and nothing after it. -/
theorem get_non200_object_without_error_key (code : Int) (st body : GoStr)
    (fs : List (GoStr × Json)) (hcode : code ≠ 200)
    (hparse : jsonParse body = some (.obj fs))
    (hkeys : ∀ p ∈ fs, foldEq p.1 (bytes ("error")) = false) :
    get { StatusCode := code, Status := st, Body := some body } =
      ([], some (.service { Message := [], Status := st, StatusCode := code })) ∧
    Error.Error { Message := [], Status := st, StatusCode := code } = st ++ bytes (" - ") := by
  constructor
  · have hdec : unmarshalErrBody body { Message := [], Status := st, StatusCode := code } =
        .ok { Message := [], Status := st, StatusCode := code } := by
      unfold unmarshalErrBody
      rw [hparse]
      exact decFields_errField_no_match fs _ hkeys
    simp [get, hcode, unmarshalError, getResponseEntityBody, hdec]
  · simp [Error.Error]

/-- Witness for C10 (amended): an object body with only unrelated keys. -/
theorem get_non200_object_without_error_key_witness :
    get { StatusCode := 400, Status := bytes ("Bad Request"), Body := some (bytes ("\x7b\"other\":1\x7d")) } =
      ([], some (.service { Message := [], Status := bytes ("Bad Request"), StatusCode := 400 })) ∧
    Error.Error { Message := [], Status := bytes ("Bad Request"), StatusCode := 400 } =
      bytes ("Bad Request") ++ bytes (" - ") :=
  get_non200_object_without_error_key 400 (bytes ("Bad Request")) (bytes ("\x7b\"other\":1\x7d"))
    [(bytes ("other"), .num (bytes ("1")))] (by decide) rfl (by decide)

/-- C7: `Response` decoding feeds the nested birthday object's `mdy`
string to the fixed `01/02/2006` (MM/DD/YYYY) layout: a parse failure is
returned unchanged, and on success the parsed calendar date becomes the
record's `Birthdate`. -/
theorem response_birthdate_mdy (data : GoStr) (a : RespAlias)
    (h : unmarshalAlias data = .ok a) :
    (∀ e : Err, parseMDY a.Birthday.MDY = .error e → (unmarshalResponse data).2 = some e) ∧
    (∀ d : Date, parseMDY a.Birthday.MDY = .ok d → (unmarshalResponse data).1.Birthdate = d) := by
  unfold unmarshalAlias at h
  cases hp : jsonParse data with
  | none => rw [hp] at h; cases h
  | some j =>
    rw [hp] at h
    have h2 : decAlias j = Except.ok a := h
    constructor
    · intro e he
      simp [unmarshalResponse, hp, unmarshalRespJson, h2, he]
    · intro d hd
      simp only [unmarshalResponse, hp, unmarshalRespJson, h2, hd]
      cases hu : urlParse a.Photo with
      | error e2 => simp [hu]
      | ok u => simp [hu]

/-- Witness for C7: a birthday object whose `mdy` field parses. -/
theorem response_birthdate_mdy_witness :
    (unmarshalResponse (bytes ("\x7b\"birthday\":\x7b\"mdy\":\"12/10/1815\"\x7d\x7d"))).1.Birthdate =
      { Year := 1815, Month := 12, Day := 10 } :=
  (response_birthdate_mdy (bytes ("\x7b\"birthday\":\x7b\"mdy\":\"12/10/1815\"\x7d\x7d"))
    { zeroAlias with Birthday := { DMY := [], MDY := bytes ("12/10/1815"), Raw := 0 } } rfl).2
    { Year := 1815, Month := 12, Day := 10 } rfl

/-! ### The canonical order `Encode` emits keys in -/

/-- `lexLe` on a cons pair unfolds to the usual lexicographic condition. -/
theorem lexLe_cons (x y : Nat) (s t : GoStr) :
    lexLe (x :: s) (y :: t) = true ↔ x < y ∨ (x = y ∧ lexLe s t = true) := by
  simp only [lexLe]
  by_cases h1 : x < y
  · simp [h1]
  · by_cases h2 : x = y
    · simp [h1, h2]
    · simp [h1, h2]

/-- `lexLe` is total. -/
theorem lexLe_conn (a b : GoStr) : lexLe a b = true ∨ lexLe b a = true := by
  induction a generalizing b with
  | nil => left; rfl
  | cons x s ih =>
    cases b with
    | nil => right; rfl
    | cons y t =>
      rcases Nat.lt_trichotomy x y with h | h | h
      · left; exact (lexLe_cons x y s t).mpr (Or.inl h)
      · subst h
        rcases ih t with h2 | h2
        · left; exact (lexLe_cons x x s t).mpr (Or.inr ⟨rfl, h2⟩)
        · right; exact (lexLe_cons x x t s).mpr (Or.inr ⟨rfl, h2⟩)
      · right; exact (lexLe_cons y x t s).mpr (Or.inl h)

/-- `lexLe` is transitive. -/
theorem lexLe_trans (a b c : GoStr) (h1 : lexLe a b = true) (h2 : lexLe b c = true) :
    lexLe a c = true := by
  induction a generalizing b c with
  | nil => rfl
  | cons x s ih =>
    cases b with
    | nil => simp [lexLe] at h1
    | cons y t =>
      cases c with
      | nil => simp [lexLe] at h2
      | cons z u =>
        rcases (lexLe_cons x y s t).mp h1 with hlt | ⟨heq, hrec⟩ <;>
          rcases (lexLe_cons y z t u).mp h2 with hlt2 | ⟨heq2, hrec2⟩
        · exact (lexLe_cons x z s u).mpr (Or.inl (Nat.lt_trans hlt hlt2))
        · exact (lexLe_cons x z s u).mpr (Or.inl (heq2 ▸ hlt))
        · exact (lexLe_cons x z s u).mpr (Or.inl (heq ▸ hlt2))
        · exact (lexLe_cons x z s u).mpr (Or.inr ⟨heq.trans heq2, ih t u hrec hrec2⟩)

/-- Inserting into a pair list permutes consing. -/
theorem insPair_perm (p : GoStr × GoStr) (l : Values) :
    List.Perm (insPair p l) (p :: l) := by
  induction l with
  | nil => exact List.Perm.refl _
  | cons q rest ih =>
    unfold insPair
    by_cases h : lexLe p.1 q.1 = true
    · simp only [h, if_true]
      exact List.Perm.refl _
    · simp only [h, if_false]
      exact (ih.cons q).trans (List.Perm.swap p q rest)

/-- `sortPairs` permutes its input. -/
theorem sortPairs_perm (v : Values) : List.Perm (sortPairs v) v := by
  induction v with
  | nil => exact List.Perm.refl _
  | cons p rest ih =>
    exact (insPair_perm p (sortPairs rest)).trans (ih.cons p)

/-- Inserting into a key-sorted pair list keeps it sorted. -/
theorem insPair_pairwise (p : GoStr × GoStr) (l : Values)
    (h : List.Pairwise (fun a b : GoStr × GoStr => lexLe a.1 b.1 = true) l) :
    List.Pairwise (fun a b : GoStr × GoStr => lexLe a.1 b.1 = true) (insPair p l) := by
  induction l with
  | nil => simp [insPair]
  | cons q rest ih =>
    rcases List.pairwise_cons.mp h with ⟨hq, hrest⟩
    unfold insPair
    by_cases hle : lexLe p.1 q.1 = true
    · simp only [hle, if_true]
      refine List.pairwise_cons.mpr ⟨?_, h⟩
      intro x hx
      rcases List.mem_cons.mp hx with rfl | hx
      · exact hle
      · exact lexLe_trans p.1 q.1 x.1 hle (hq x hx)
    · simp only [hle, if_false]
      refine List.pairwise_cons.mpr ⟨?_, ih hrest⟩
      intro x hx
      rcases List.mem_cons.mp ((insPair_perm p rest).mem_iff.mp hx) with rfl | hx2
      · rcases lexLe_conn x.1 q.1 with h1 | h1
        · exact absurd h1 hle
        · exact h1
      · exact hq x hx2

/-- `sortPairs` sorts by key. -/
theorem sortPairs_pairwise (v : Values) :
    List.Pairwise (fun a b : GoStr × GoStr => lexLe a.1 b.1 = true) (sortPairs v) := by
  induction v with
  | nil => exact List.Pairwise.nil
  | cons p rest ih => exact insPair_pairwise p (sortPairs rest) ih

/-! ### Escaping round trip -/

/-- `hexVal` inverts `hexDigUp` on nibbles. -/
theorem hexVal_hexDigUp (n : Nat) (h : n < 16) : hexVal (hexDigUp n) = some n := by
  unfold hexVal hexDigUp
  by_cases h10 : n < 10
  · rw [if_pos h10, if_pos (by omega)]
    congr 1
    omega
  · rw [if_neg h10, if_neg (by omega), if_pos (by omega)]
    congr 1
    omega

/-- A byte `QueryEscape` keeps is none of the bytes that structure a
query string. -/
theorem shouldKeep_ne (b : Nat) (h : shouldKeep b = true) :
    b ≠ 37 ∧ b ≠ 43 ∧ b ≠ 38 ∧ b ≠ 61 ∧ b ≠ 59 ∧ b ≠ 32 := by
  simp only [shouldKeep, Bool.or_eq_true, decide_eq_true_eq, beq_iff_eq] at h
  omega

/-- `hexDigUp` only produces digit and uppercase-letter bytes. -/
theorem hexDigUp_range (n : Nat) : (48 ≤ hexDigUp n ∧ hexDigUp n ≤ 57) ∨ 65 ≤ hexDigUp n := by
  unfold hexDigUp
  by_cases h : n < 10
  · left; rw [if_pos h]; omega
  · right; rw [if_neg h]; omega

/-- Escaped bytes never contain the separators `&`, `=`, `;`. -/
theorem escByte_mem (b c : Nat) (hc : c ∈ escByte b) : c ≠ 38 ∧ c ≠ 61 ∧ c ≠ 59 := by
  unfold escByte at hc
  by_cases h1 : shouldKeep b = true
  · rw [if_pos h1] at hc
    have hcb : c = b := List.mem_singleton.mp hc
    have := shouldKeep_ne b h1
    omega
  · rw [if_neg h1] at hc
    by_cases h2 : b = 32
    · rw [if_pos h2] at hc
      have hcb : c = 43 := List.mem_singleton.mp hc
      omega
    · rw [if_neg h2] at hc
      simp only [List.mem_cons, List.not_mem_nil, or_false] at hc
      rcases hc with rfl | rfl | rfl
      · omega
      · rcases hexDigUp_range (b / 16) with h | h <;> omega
      · rcases hexDigUp_range (b % 16) with h | h <;> omega

/-- `QueryEscape` output never contains the separators `&`, `=`, `;`. -/
theorem queryEscape_mem (s : GoStr) (c : Nat) (hc : c ∈ queryEscape s) :
    c ≠ 38 ∧ c ≠ 61 ∧ c ≠ 59 := by
  induction s with
  | nil => cases hc
  | cons b t ih =>
    simp only [queryEscape, List.mem_append] at hc
    rcases hc with hc | hc
    · exact escByte_mem b c hc
    · exact ih hc

/-- Unescaping a plain byte (neither `%` nor `+`) keeps it. -/
theorem queryUnescape_plain (b : Nat) (t : GoStr) (h37 : b ≠ 37) (h43 : b ≠ 43) :
    queryUnescape (b :: t) = (queryUnescape t).map (fun r => b :: r) := by
  conv_lhs => unfold queryUnescape
  rw [if_neg h37, if_neg h43]

/-- Unescaping `+` yields a space. -/
theorem queryUnescape_plus (t : GoStr) :
    queryUnescape (43 :: t) = (queryUnescape t).map (fun r => 32 :: r) := by
  conv_lhs => unfold queryUnescape
  norm_num

/-- Unescaping `%XY` yields the encoded byte. -/
theorem queryUnescape_pct (a c x y : Nat) (t : GoStr)
    (ha : hexVal a = some x) (hc : hexVal c = some y) :
    queryUnescape (37 :: a :: c :: t) = (queryUnescape t).map (fun r => (16 * x + y) :: r) := by
  conv_lhs => unfold queryUnescape
  rw [if_pos rfl]
  simp only [ha, hc]

/-- Unescaping an escaped byte prepends it and continues. -/
theorem queryUnescape_escByte (b : Nat) (hb : b < 256) (t : GoStr) :
    queryUnescape (escByte b ++ t) = (queryUnescape t).map (fun r => b :: r) := by
  unfold escByte
  by_cases h1 : shouldKeep b = true
  · rw [if_pos h1]
    have hne := shouldKeep_ne b h1
    simp only [List.cons_append, List.nil_append]
    exact queryUnescape_plain b t hne.1 hne.2.1
  · rw [if_neg h1]
    by_cases h2 : b = 32
    · rw [if_pos h2]
      subst h2
      simp only [List.cons_append, List.nil_append, queryUnescape_plus]
    · rw [if_neg h2]
      have hq : b / 16 < 16 := by omega
      have hr : b % 16 < 16 := Nat.mod_lt b (by omega)
      simp only [List.cons_append, List.nil_append,
        queryUnescape_pct _ _ _ _ t (hexVal_hexDigUp (b / 16) hq) (hexVal_hexDigUp (b % 16) hr)]
      have : 16 * (b / 16) + b % 16 = b := by omega
      rw [this]

/-- `QueryUnescape` undoes `QueryEscape` (Go strings are byte strings, so
every byte is below 256). -/
theorem queryUnescape_queryEscape (s : GoStr) (h : ∀ b ∈ s, b < 256) :
    queryUnescape (queryEscape s) = .ok s := by
  induction s with
  | nil => rfl
  | cons b t ih =>
    have hb : b < 256 := h b (List.mem_cons_self b t)
    have ht : ∀ c ∈ t, c < 256 := fun c hc => h c (List.mem_cons_of_mem b hc)
    simp only [queryEscape, queryUnescape_escByte b hb, ih ht, Except.map]

/-! ### Splitting the encoded query string -/

/-- `splitSep` leaves a separator-free string whole. -/
theorem splitSep_no_sep (sep : Nat) (s : GoStr) (h : ∀ b ∈ s, b ≠ sep) :
    splitSep sep s = (s, none) := by
  induction s with
  | nil => rfl
  | cons b t ih =>
    have hb : b ≠ sep := h b (List.mem_cons_self b t)
    have ht : ∀ c ∈ t, c ≠ sep := fun c hc => h c (List.mem_cons_of_mem b hc)
    simp [splitSep, hb, ih ht]

/-- `splitSep` cuts at the first separator. -/
theorem splitSep_first (sep : Nat) (s t : GoStr) (h : ∀ b ∈ s, b ≠ sep) :
    splitSep sep (s ++ sep :: t) = (s, some t) := by
  induction s with
  | nil => simp [splitSep]
  | cons b r ih =>
    have hb : b ≠ sep := h b (List.mem_cons_self b r)
    have hr : ∀ c ∈ r, c ≠ sep := fun c hc => h c (List.mem_cons_of_mem b hc)
    simp [splitSep, hb, ih hr]

/-- The cons equation of `splitAll`. -/
theorem splitAll_cons (sep b : Nat) (t : GoStr) :
    splitAll sep (b :: t) =
      if b = sep then [] :: splitAll sep t
      else
        match splitAll sep t with
        | seg :: segs => (b :: seg) :: segs
        | [] => [[b]] := rfl

/-- `splitAll` leaves a separator-free string whole. -/
theorem splitAll_no_sep (sep : Nat) (s : GoStr) (h : ∀ b ∈ s, b ≠ sep) :
    splitAll sep s = [s] := by
  induction s with
  | nil => rfl
  | cons b t ih =>
    have hb : b ≠ sep := h b (List.mem_cons_self b t)
    have ht : ∀ c ∈ t, c ≠ sep := fun c hc => h c (List.mem_cons_of_mem b hc)
    rw [splitAll_cons, if_neg hb, ih ht]

/-- `splitAll` peels off a leading separator-free segment. -/
theorem splitAll_append_sep (sep : Nat) (s t : GoStr) (h : ∀ b ∈ s, b ≠ sep) :
    splitAll sep (s ++ sep :: t) = s :: splitAll sep t := by
  induction s with
  | nil =>
    rw [List.nil_append, splitAll_cons, if_pos rfl]
  | cons b r ih =>
    have hb : b ≠ sep := h b (List.mem_cons_self b r)
    have hr : ∀ c ∈ r, c ≠ sep := fun c hc => h c (List.mem_cons_of_mem b hc)
    rw [List.cons_append, splitAll_cons, if_neg hb, ih hr]

/-- `splitAll` recovers the segments `joinSep` joined, when none of them
contains the separator. -/
theorem splitAll_joinSep (sep : Nat) (segs : List GoStr) (hne : segs ≠ [])
    (h : ∀ seg ∈ segs, ∀ b ∈ seg, b ≠ sep) :
    splitAll sep (joinSep sep segs) = segs := by
  induction segs with
  | nil => exact absurd rfl hne
  | cons x rest ih =>
    cases rest with
    | nil =>
      exact splitAll_no_sep sep x (h x (List.mem_cons_self x []))
    | cons y rest2 =>
      have hx : ∀ b ∈ x, b ≠ sep := h x (List.mem_cons_self x (y :: rest2))
      have hrest : ∀ seg ∈ y :: rest2, ∀ b ∈ seg, b ≠ sep :=
        fun seg hs => h seg (List.mem_cons_of_mem x hs)
      have hjoin : joinSep sep (x :: y :: rest2) = x ++ sep :: joinSep sep (y :: rest2) := rfl
      rw [hjoin, splitAll_append_sep sep x _ hx, ih (by simp) hrest]

/-! ### C8: the encode/parse round trip -/

/-- Every byte of a Go string is below 256. -/
def BytesValid (v : Values) : Prop :=
  ∀ p ∈ v, (∀ b ∈ p.1, b < 256) ∧ (∀ b ∈ p.2, b < 256)

/-- `parseSegs` decodes the escaped `k=v` segments `Encode` produced back
into the same pairs, in the same order, with no error. -/
theorem parseSegs_encoded (ps : Values) (h : BytesValid ps) :
    parseSegs (ps.map (fun p => queryEscape p.1 ++ 61 :: queryEscape p.2)) = (ps, none) := by
  induction ps with
  | nil => rfl
  | cons p rest ih =>
    have hp := h p (List.mem_cons_self p rest)
    have hrest : BytesValid rest := fun q hq => h q (List.mem_cons_of_mem p hq)
    have hseg_ne : queryEscape p.1 ++ 61 :: queryEscape p.2 ≠ [] := by
      intro hh
      have := congrArg List.length hh
      simp at this
    have hseg_no59 : ¬(59 ∈ queryEscape p.1 ++ 61 :: queryEscape p.2) := by
      intro hh
      rcases List.mem_append.mp hh with hh | hh
      · exact (queryEscape_mem p.1 59 hh).2.2 rfl
      · rcases List.mem_cons.mp hh with hh | hh
        · omega
        · exact (queryEscape_mem p.2 59 hh).2.2 rfl
    have hcut : splitSep 61 (queryEscape p.1 ++ 61 :: queryEscape p.2) =
        (queryEscape p.1, some (queryEscape p.2)) :=
      splitSep_first 61 (queryEscape p.1) (queryEscape p.2)
        (fun b hb => (queryEscape_mem p.1 b hb).2.1)
    simp only [List.map_cons, parseSegs, if_neg hseg_ne, if_neg hseg_no59, hcut,
      queryUnescape_queryEscape p.1 hp.1, queryUnescape_queryEscape p.2 hp.2, ih hrest]

/-- Parsing the encoded query recovers the sorted pair list exactly. -/
theorem parseQuery_Encode (v : Values) (h : BytesValid v) :
    parseQuery (Values.Encode v) = (sortPairs v, none) := by
  have hs : BytesValid (sortPairs v) :=
    fun p hp => h p ((sortPairs_perm v).mem_iff.mp hp)
  cases hemp : sortPairs v with
  | nil =>
    unfold parseQuery Values.Encode
    rw [hemp]
    rfl
  | cons p rest =>
    unfold parseQuery Values.Encode
    rw [hemp]
    rw [splitAll_joinSep 38 _ (by simp) ?noamp]
    case noamp =>
      intro seg hseg b hb
      rcases List.mem_map.mp hseg with ⟨q, _, rfl⟩
      rcases List.mem_append.mp hb with hb | hb
      · exact (queryEscape_mem q.1 b hb).1
      · rcases List.mem_cons.mp hb with rfl | hb
        · omega
        · exact (queryEscape_mem q.2 b hb).1
    rw [← hemp]
    exact parseSegs_encoded (sortPairs v) hs

/-- C8: for options that applied successfully, encoding the resulting
parameter set and re-parsing the query string recovers exactly the same
key/value pairs, with keys in canonical sorted order rather than
insertion order. -/
theorem options_encode_roundtrip (opts : List Opt) (v : Values)
    (happ : applyOpts opts [] = .ok v) (hbytes : BytesValid v) :
    parseQuery (Values.Encode v) = (sortPairs v, none) ∧
    List.Perm (sortPairs v) v ∧
    List.Pairwise (fun a b : GoStr × GoStr => lexLe a.1 b.1 = true) (sortPairs v) :=
  ⟨parseQuery_Encode v hbytes, sortPairs_perm v, sortPairs_pairwise v⟩

/-- The parameter set built by the round-trip witness's options. -/
def vWitness : Values :=
  [(bytes ("region"), bytes ("New &=Land")), (bytes ("amount"), bytes ("5"))]

/-- Witness for C8: options whose region value needs escaping. -/
theorem options_encode_roundtrip_witness :
    parseQuery (Values.Encode vWitness) = (sortPairs vWitness, none) ∧
    List.Perm (sortPairs vWitness) vWitness ∧
    List.Pairwise (fun a b : GoStr × GoStr => lexLe a.1 b.1 = true) (sortPairs vWitness) :=
  options_encode_roundtrip [Region (bytes ("New &=Land")), Amount 5] vWitness rfl
    (by unfold BytesValid; decide)

end UINames
